import Mathlib

/-!
Shallow embedding of the lexical probability model and sentence classifier of
`teki_main_app.py` (functions `get_feat_count`, `get_probs`, and the inner
`calculate` of `sentence_classification`).  Python dicts are modelled as
insertion-ordered association lists (`dinsert`/`dgetD`), training rows as
`List String`, and float arithmetic as exact rational arithmetic over `ℚ`.
-/

namespace Teki

/-- Lookup in an insertion-ordered association list (Python `dict` access):
the value at the first entry whose key matches, if any. -/
def dfind {α : Type} : List (String × α) → String → Option α
  | [], _ => none
  | (k2, v) :: rest, k => if k2 = k then some v else dfind rest k

/-- Python `d.get(k, dflt)`. -/
def dgetD {α : Type} (d : List (String × α)) (k : String) (dflt : α) : α :=
  (dfind d k).getD dflt

/-- Python `d[k] = v`: overwrite the entry in place if the key is present
(insertion order preserved), otherwise append a fresh entry at the end. -/
def dinsert {α : Type} : List (String × α) → String → α → List (String × α)
  | [], k, v => [(k, v)]
  | (k2, v2) :: rest, k, v =>
      if k2 = k then (k, v) :: rest else (k2, v2) :: dinsert rest k v

/-- `row[0]`: the surface token of a training row. -/
def rowWord (r : List String) : String := r.getD 0 ""

/-- `row[5]`: the label field of a training row. -/
def rowLabel (r : List String) : String := r.getD 5 ""

/-- `(row[3], row[4], row[5])`: the sentence-identity triple used by
`get_feat_count` for deduplicated sentence counting. -/
def rowTriple (r : List String) : String × String × String :=
  (r.getD 3 "", r.getD 4 "", r.getD 5 "")

/-- Sum of the values of an association-list dict (Python `sum(d.values())`). -/
def valuesSum (d : List (String × Nat)) : Nat := (d.map Prod.snd).sum

/-- The `feat_count` dict of `get_feat_count` (lines 778-783): starting from
`{"LIT": 0, "ORAL": 0}`, bump the counter of each distinct sentence triple's
label.  The Python code iterates over a set; counting is order-independent, so
the first-occurrence `dedup` order is a faithful model. -/
def featCountOf (table : List (List String)) : List (String × Nat) :=
  ((table.map rowTriple).dedup).foldl
    (fun fc t => dinsert fc t.2.2 (dgetD fc t.2.2 0 + 1))
    [("LIT", 0), ("ORAL", 0)]

/-- `get_feat_count` (lines 758-790).  Accessing `row[3]`/`row[4]`/`row[5]` on
a row with fewer than 6 fields raises `IndexError` in the source, aborting the
whole load before anything is returned; this is modelled as `none`. -/
def get_feat_count (table : List (List String)) :
    Option (List (String × Nat) × List (List String)) :=
  if table.all (fun r => decide (6 ≤ r.length)) then
    some (featCountOf table, table)
  else none

/-- The mutable state threaded through the scan of `get_probs` (lines
830-856).  The source also fills `vocabulary`, `lit_tokens` and `oral_tokens`,
but those are write-only locals that never influence the returned values, so
they are omitted.  `oral_feat`/`lit_feat` keep the source's (cross-labelled)
names: `oral_feat` is bumped on LIT-labeled rows and `lit_feat` on
ORAL-labeled rows. -/
structure ProbState where
  oral_feat : String → Nat
  lit_feat : String → Nat
  prob_results : String → Option (ℚ × ℚ)

/-- Initial state: empty dicts. -/
def initProbState : ProbState :=
  ⟨fun _ => 0, fun _ => 0, fun _ => none⟩

/-- `f` with the count at `w` bumped by one (Python `d[w] = d.get(w, 0) + 1`). -/
def bump (f : String → Nat) (w : String) : String → Nat :=
  fun x => if x = w then f x + 1 else f x

/-- One iteration of the `for element in training_data` loop of `get_probs`
(lines 830-856): bump the per-word counter of the row's label, then recompute
and overwrite this word's probability pair.  `litCount`, `oralCount` are
`feat_count["LIT"]`, `feat_count["ORAL"]`; `n` is `n_training_data`. -/
def probStep (litCount oralCount n : Nat) (s : ProbState) (element : List String) :
    ProbState :=
  let word := rowWord element
  let feat := rowLabel element
  let s1 : ProbState :=
    if feat = "LIT" then { s with oral_feat := bump s.oral_feat word }
    else if feat = "ORAL" then { s with lit_feat := bump s.lit_feat word }
    else s
  let feat_1_prob : ℚ :=
    if 0 < s1.oral_feat word then (s1.oral_feat word : ℚ) / (litCount : ℚ)
    else (litCount : ℚ) / (n : ℚ) ^ 2
  let feat_2_prob : ℚ :=
    if 0 < s1.lit_feat word then (s1.lit_feat word : ℚ) / (oralCount : ℚ)
    else (oralCount : ℚ) / (n : ℚ) ^ 2
  { s1 with prob_results :=
      fun x => if x = word then some (feat_1_prob, feat_2_prob) else s1.prob_results x }

/-- `get_probs` (lines 793-858): scan the training rows and return
`(feat_count, prob_results)`. -/
def get_probs (freq : List (String × Nat) × List (List String)) :
    List (String × Nat) × (String → Option (ℚ × ℚ)) :=
  let feat_count := freq.1
  let training_data := freq.2
  let n_training_data := valuesSum feat_count
  let final := training_data.foldl
    (probStep (dgetD feat_count "LIT" 0) (dgetD feat_count "ORAL" 0) n_training_data)
    initProbState
  (feat_count, final.prob_results)

/-- The word-probability map built from a table (second component of
`get_probs(get_feat_count(file))`). -/
def probsOf (table : List (List String)) : String → Option (ℚ × ℚ) :=
  (get_probs (featCountOf table, table)).2

/-- The whole model build `get_probs(get_feat_count(file))` (line 1120-1121),
propagating the loader's failure. -/
def buildModel (table : List (List String)) :
    Option (List (String × Nat) × (String → Option (ℚ × ℚ))) :=
  (get_feat_count table).map get_probs

/-- A built model as passed to `sentence_classification`: the pair
`(feat_count, prob_results)`.  Inside `calculate` (line 914) the components
are unpacked as `prior_prob = probabilities[1]` (the word map) and the local
name `prob_results = probabilities[0]` (the label counts). -/
abbrev Model := List (String × Nat) × (String → Option (ℚ × ℚ))

/-- `lit_prob_total` seed (line 916): `feat_count["LIT"]` over the sum of the
two label counts. -/
def litPrior (m : Model) : ℚ :=
  ((dgetD m.1 "LIT" 0 : Nat) : ℚ) /
    (((dgetD m.1 "LIT" 0 : Nat) : ℚ) + ((dgetD m.1 "ORAL" 0 : Nat) : ℚ))

/-- `oral_prob_total` seed (line 917). -/
def oralPrior (m : Model) : ℚ :=
  ((dgetD m.1 "ORAL" 0 : Nat) : ℚ) /
    (((dgetD m.1 "LIT" 0 : Nat) : ℚ) + ((dgetD m.1 "ORAL" 0 : Nat) : ℚ))

/-- `n_training_data` of `calculate` (line 919): the squared sum of the
values of `probabilities[0]`, i.e. of the `feat_count` dict. -/
def nSquared (m : Model) : ℚ := ((valuesSum m.1 : Nat) : ℚ) ^ 2

/-- `lit_smooth` (line 920). -/
def litSmooth (m : Model) : ℚ := ((dgetD m.1 "LIT" 0 : Nat) : ℚ) / nSquared m

/-- `oral_smooth` (line 921). -/
def oralSmooth (m : Model) : ℚ := ((dgetD m.1 "ORAL" 0 : Nat) : ℚ) / nSquared m

/-- The pair assigned to a token by the first loop of `calculate` (lines
924-928): the stored pair when the word is in `prior_prob` (a stored pair is
a tuple, hence always truthy under Python `bool`), else the smoothed pair. -/
def tokenPair (m : Model) (word : String) : ℚ × ℚ :=
  match m.2 word with
  | some p => p
  | none => (litSmooth m, oralSmooth m)

/-- The `word_feat_prob` dict after the first loop of `calculate` (lines
922-928): one entry per distinct token, in first-occurrence order. -/
def wordFeatProb (m : Model) (text : List String) : List (String × (ℚ × ℚ)) :=
  text.foldl (fun d word => dinsert d word (tokenPair m word)) []

/-- The accumulated `(lit_prob_total, oral_prob_total)` after the second loop
of `calculate` (lines 930-932). -/
def calcTotals (m : Model) (text : List String) : ℚ × ℚ :=
  (wordFeatProb m text).foldl
    (fun acc entry => (acc.1 * entry.2.1, acc.2 * entry.2.2))
    (litPrior m, oralPrior m)

/-- The decision of `calculate` (lines 938-946). -/
def calculate (m : Model) (text : List String) : String :=
  let t := calcTotals m text
  if t.1 > t.2 then "LIT" else if t.2 > t.1 then "ORAL" else "UNK"

/-! ### Spec-side counting functions (for stating the claims) -/

/-- `labelCounts[LIT]` of a table: the loader's count for key `"LIT"`. -/
def litCountOf (table : List (List String)) : Nat :=
  dgetD (featCountOf table) "LIT" 0

/-- `labelCounts[ORAL]` of a table: the loader's count for key `"ORAL"`. -/
def oralCountOf (table : List (List String)) : Nat :=
  dgetD (featCountOf table) "ORAL" 0

/-- Number of token occurrences of word `w` in LIT-labeled rows of the table. -/
def cntLIT (table : List (List String)) (w : String) : Nat :=
  table.countP (fun r => rowWord r == w && rowLabel r == "LIT")

/-- Number of token occurrences of word `w` in ORAL-labeled rows of the table. -/
def cntORAL (table : List (List String)) (w : String) : Nat :=
  table.countP (fun r => rowWord r == w && rowLabel r == "ORAL")

/-- The probability pair `get_probs` stores for a word with `a` LIT-occurrences
and `b` ORAL-occurrences, given label counts `lc`, `oc` and total `n`:
MLE on the branch with a positive count, Ng smoothing on the other. -/
def specPair (lc oc n a b : Nat) : ℚ × ℚ :=
  ((if 0 < a then (a : ℚ) / (lc : ℚ) else (lc : ℚ) / (n : ℚ) ^ 2),
   (if 0 < b then (b : ℚ) / (oc : ℚ) else (oc : ℚ) / (n : ℚ) ^ 2))

/-! ### Dictionary lemmas -/

lemma dfind_dinsert_self {α : Type} (d : List (String × α)) (k : String) (v : α) :
    dfind (dinsert d k v) k = some v := by
  induction d with
  | nil => simp [dinsert, dfind]
  | cons e rest ih =>
    obtain ⟨k2, v2⟩ := e
    by_cases h : k2 = k
    · simp [dinsert, h, dfind]
    · simp [dinsert, h, dfind, ih]

lemma dfind_dinsert_ne {α : Type} (d : List (String × α)) (k k' : String) (v : α)
    (h : k' ≠ k) : dfind (dinsert d k v) k' = dfind d k' := by
  induction d with
  | nil => simp [dinsert, dfind, Ne.symm h]
  | cons e rest ih =>
    obtain ⟨k2, v2⟩ := e
    by_cases h2 : k2 = k
    · subst h2
      simp [dinsert, dfind, Ne.symm h]
    · simp [dinsert, h2, dfind, ih]

lemma dgetD_dinsert_self {α : Type} (d : List (String × α)) (k : String) (v dflt : α) :
    dgetD (dinsert d k v) k dflt = v := by
  simp [dgetD, dfind_dinsert_self]

lemma dgetD_dinsert_ne {α : Type} (d : List (String × α)) (k k' : String) (v dflt : α)
    (h : k' ≠ k) : dgetD (dinsert d k v) k' dflt = dgetD d k' dflt := by
  simp [dgetD, dfind_dinsert_ne _ _ _ _ h]

lemma valuesSum_dinsert_bump (d : List (String × Nat)) (k : String) :
    valuesSum (dinsert d k (dgetD d k 0 + 1)) = valuesSum d + 1 := by
  induction d with
  | nil => simp [dinsert, dgetD, dfind, valuesSum]
  | cons e rest ih =>
    obtain ⟨k2, v2⟩ := e
    by_cases h : k2 = k
    · subst h
      simp [dinsert, dgetD, dfind, valuesSum]
      omega
    · simp only [dinsert, h, if_false, valuesSum, List.map_cons, List.sum_cons,
        dgetD, dfind, if_neg h] at ih ⊢
      omega

/-! ### Loader (`get_feat_count`) lemmas -/

lemma featFold_get (L : List (String × String × String)) (d : List (String × Nat))
    (k : String) :
    dgetD (L.foldl (fun fc t => dinsert fc t.2.2 (dgetD fc t.2.2 0 + 1)) d) k 0 =
      dgetD d k 0 + L.countP (fun t => t.2.2 == k) := by
  induction L generalizing d with
  | nil => simp
  | cons t L ih =>
    rw [List.foldl_cons, ih, List.countP_cons]
    by_cases h : t.2.2 = k
    · subst h
      rw [dgetD_dinsert_self]
      simp
      omega
    · rw [dgetD_dinsert_ne _ _ _ _ _ (fun hk => h hk.symm)]
      simp [h]

lemma featFold_sum (L : List (String × String × String)) (d : List (String × Nat)) :
    valuesSum (L.foldl (fun fc t => dinsert fc t.2.2 (dgetD fc t.2.2 0 + 1)) d) =
      valuesSum d + L.length := by
  induction L generalizing d with
  | nil => simp
  | cons t L ih =>
    rw [List.foldl_cons, ih, valuesSum_dinsert_bump]
    simp only [List.length_cons]
    omega

lemma litCountOf_eq (table : List (List String)) :
    litCountOf table = ((table.map rowTriple).dedup).countP (fun t => t.2.2 == "LIT") := by
  rw [litCountOf, featCountOf, featFold_get]
  simp [dgetD, dfind]

lemma oralCountOf_eq (table : List (List String)) :
    oralCountOf table = ((table.map rowTriple).dedup).countP (fun t => t.2.2 == "ORAL") := by
  rw [oralCountOf, featCountOf, featFold_get]
  simp [dgetD, dfind]

lemma valuesSum_featCountOf (table : List (List String)) :
    valuesSum (featCountOf table) = ((table.map rowTriple).dedup).length := by
  rw [featCountOf, featFold_sum]
  simp [valuesSum]

lemma countP_two_labels (l : List (String × String × String))
    (h : ∀ t ∈ l, t.2.2 = "LIT" ∨ t.2.2 = "ORAL") :
    l.countP (fun t => t.2.2 == "LIT") + l.countP (fun t => t.2.2 == "ORAL") =
      l.length := by
  induction l with
  | nil => simp
  | cons t l ih =>
    have hrest : ∀ a ∈ l, a.2.2 = "LIT" ∨ a.2.2 = "ORAL" :=
      fun a ha => h a (List.mem_cons_of_mem _ ha)
    rcases h t (List.mem_cons_self t l) with h1 | h1 <;>
      simp [List.countP_cons, h1, ← ih hrest] <;> omega

/-- Under the label-domain invariant, the two label counts partition the
distinct sentence triples. -/
lemma featCount_partition (table : List (List String))
    (hlab : ∀ r ∈ table, rowLabel r = "LIT" ∨ rowLabel r = "ORAL") :
    litCountOf table + oralCountOf table = ((table.map rowTriple).dedup).length := by
  rw [litCountOf_eq, oralCountOf_eq]
  apply countP_two_labels
  intro t ht
  have ht2 := List.dedup_subset _ ht
  obtain ⟨r, hr, rfl⟩ := List.mem_map.mp ht2
  exact hlab r hr

/-! ### `get_probs` scan lemmas -/

lemma probStep_oral_feat (lc oc n : Nat) (s : ProbState) (r : List String) (w : String) :
    (probStep lc oc n s r).oral_feat w =
      s.oral_feat w + (if rowLabel r = "LIT" ∧ w = rowWord r then 1 else 0) := by
  by_cases h1 : rowLabel r = "LIT" <;> by_cases h2 : w = rowWord r <;>
    by_cases h3 : rowLabel r = "ORAL" <;>
    simp [probStep, bump, h1, h2, h3]

lemma probStep_lit_feat (lc oc n : Nat) (s : ProbState) (r : List String) (w : String) :
    (probStep lc oc n s r).lit_feat w =
      s.lit_feat w + (if rowLabel r = "ORAL" ∧ w = rowWord r then 1 else 0) := by
  by_cases h1 : rowLabel r = "LIT" <;> by_cases h2 : w = rowWord r <;>
    by_cases h3 : rowLabel r = "ORAL" <;>
    simp [probStep, bump, h1, h2, h3]

lemma probStep_prob_ne (lc oc n : Nat) (s : ProbState) (r : List String) (w : String)
    (h : w ≠ rowWord r) :
    (probStep lc oc n s r).prob_results w = s.prob_results w := by
  by_cases h1 : rowLabel r = "LIT" <;> by_cases h2 : rowLabel r = "ORAL" <;>
    simp [probStep, h, h1, h2]

/-- At the row's own word, `probStep` stores the pair determined by the
updated counters. -/
lemma probStep_prob_self (lc oc n : Nat) (s : ProbState) (r : List String) :
    (probStep lc oc n s r).prob_results (rowWord r) =
      some (specPair lc oc n ((probStep lc oc n s r).oral_feat (rowWord r))
        ((probStep lc oc n s r).lit_feat (rowWord r))) := by
  by_cases h1 : rowLabel r = "LIT" <;> by_cases h2 : rowLabel r = "ORAL" <;>
    simp [probStep, specPair, h1, h2]

lemma foldl_oral_feat (lc oc n : Nat) (t : List (List String)) (s : ProbState)
    (w : String) :
    (t.foldl (probStep lc oc n) s).oral_feat w = s.oral_feat w + cntLIT t w := by
  induction t generalizing s with
  | nil => simp [cntLIT]
  | cons r t ih =>
    rw [List.foldl_cons, ih, probStep_oral_feat]
    simp only [cntLIT, List.countP_cons]
    by_cases h1 : rowWord r = w
    · by_cases h2 : rowLabel r = "LIT" <;> simp [h1, h2] <;> omega
    · by_cases h2 : rowLabel r = "LIT" <;> simp [h1, h2, Ne.symm h1] <;> omega

lemma foldl_lit_feat (lc oc n : Nat) (t : List (List String)) (s : ProbState)
    (w : String) :
    (t.foldl (probStep lc oc n) s).lit_feat w = s.lit_feat w + cntORAL t w := by
  induction t generalizing s with
  | nil => simp [cntORAL]
  | cons r t ih =>
    rw [List.foldl_cons, ih, probStep_lit_feat]
    simp only [cntORAL, List.countP_cons]
    by_cases h1 : rowWord r = w
    · by_cases h2 : rowLabel r = "ORAL" <;> simp [h1, h2] <;> omega
    · by_cases h2 : rowLabel r = "ORAL" <;> simp [h1, h2, Ne.symm h1] <;> omega

lemma foldl_prob_not_mem (lc oc n : Nat) (t : List (List String)) (s : ProbState)
    (w : String) (hw : w ∉ t.map rowWord) :
    (t.foldl (probStep lc oc n) s).prob_results w = s.prob_results w := by
  induction t generalizing s with
  | nil => rfl
  | cons r t ih =>
    rw [List.map_cons] at hw
    rw [List.foldl_cons, ih _ (fun hm => hw (List.mem_cons_of_mem _ hm)),
      probStep_prob_ne _ _ _ _ _ _ (fun he => hw (he ▸ List.mem_cons_self _ _))]

/-- The final value stored for any word occurring in the scanned rows: the
pair recomputed at the word's last occurrence, whose cumulative counters by
then equal the full-corpus occurrence counts. -/
lemma foldl_prob_mem (lc oc n : Nat) (t : List (List String)) (s : ProbState)
    (w : String) (hw : w ∈ t.map rowWord) :
    (t.foldl (probStep lc oc n) s).prob_results w =
      some (specPair lc oc n (s.oral_feat w + cntLIT t w)
        (s.lit_feat w + cntORAL t w)) := by
  induction t using List.reverseRecOn with
  | nil => simp at hw
  | append_singleton t r ih =>
    rw [List.foldl_append, List.foldl_cons, List.foldl_nil]
    by_cases hwr : w = rowWord r
    · subst hwr
      rw [probStep_prob_self]
      have ha : (probStep lc oc n (t.foldl (probStep lc oc n) s) r).oral_feat
            (rowWord r) =
          s.oral_feat (rowWord r) + cntLIT (t ++ [r]) (rowWord r) := by
        rw [probStep_oral_feat, foldl_oral_feat]
        simp only [cntLIT, List.countP_append, List.countP_cons, List.countP_nil]
        by_cases h2 : rowLabel r = "LIT" <;> simp [h2] <;> omega
      have hb : (probStep lc oc n (t.foldl (probStep lc oc n) s) r).lit_feat
            (rowWord r) =
          s.lit_feat (rowWord r) + cntORAL (t ++ [r]) (rowWord r) := by
        rw [probStep_lit_feat, foldl_lit_feat]
        simp only [cntORAL, List.countP_append, List.countP_cons, List.countP_nil]
        by_cases h2 : rowLabel r = "ORAL" <;> simp [h2] <;> omega
      rw [ha, hb]
    · rw [probStep_prob_ne _ _ _ _ _ _ hwr]
      rw [List.map_append, List.map_cons, List.map_nil] at hw
      have hw' : w ∈ t.map rowWord := by
        rcases List.mem_append.mp hw with h | h
        · exact h
        · simp at h
          exact absurd h hwr
      rw [ih hw']
      have hc1 : cntLIT (t ++ [r]) w = cntLIT t w := by
        simp only [cntLIT, List.countP_append, List.countP_cons, List.countP_nil]
        simp [Ne.symm hwr]
      have hc2 : cntORAL (t ++ [r]) w = cntORAL t w := by
        simp only [cntORAL, List.countP_append, List.countP_cons, List.countP_nil]
        simp [Ne.symm hwr]
      rw [hc1, hc2]

/-- Full-corpus characterization of `prob_results` for in-vocabulary words. -/
lemma probsOf_mem (table : List (List String)) (w : String)
    (hw : w ∈ table.map rowWord) :
    probsOf table w =
      some (specPair (litCountOf table) (oralCountOf table)
        (valuesSum (featCountOf table)) (cntLIT table w) (cntORAL table w)) := by
  unfold probsOf get_probs
  dsimp only
  rw [foldl_prob_mem _ _ _ _ _ _ hw]
  simp [initProbState, litCountOf, oralCountOf]

/-- Words never occurring in the table get no entry in `prob_results`. -/
lemma probsOf_not_mem (table : List (List String)) (w : String)
    (hw : w ∉ table.map rowWord) :
    probsOf table w = none := by
  unfold probsOf get_probs
  dsimp only
  rw [foldl_prob_not_mem _ _ _ _ _ _ hw]
  rfl

/-! ### Classifier dictionary lemmas -/

/-- Product of `g` over the values of a dict. -/
def dprod (g : ℚ × ℚ → ℚ) (d : List (String × (ℚ × ℚ))) : ℚ :=
  (d.map (fun e => g e.2)).prod

lemma dinsert_mem_consistent {α : Type} (d : List (String × α)) (F : String → α)
    (k : String) (hcons : ∀ e ∈ d, e.2 = F e.1) (hk : k ∈ d.map Prod.fst) :
    dinsert d k (F k) = d := by
  induction d with
  | nil => simp at hk
  | cons e rest ih =>
    obtain ⟨k2, v2⟩ := e
    by_cases h : k2 = k
    · subst h
      have hv : v2 = F k2 := hcons (k2, v2) (List.mem_cons_self _ _)
      simp [dinsert, hv]
    · rw [List.map_cons] at hk
      have hk' : k ∈ rest.map Prod.fst := by
        rcases List.mem_cons.mp hk with h1 | h1
        · exact absurd h1.symm h
        · exact h1
      simp [dinsert, h, ih (fun e he => hcons e (List.mem_cons_of_mem _ he)) hk']

lemma dinsert_not_mem {α : Type} (d : List (String × α)) (k : String) (v : α)
    (hk : k ∉ d.map Prod.fst) :
    dinsert d k v = d ++ [(k, v)] := by
  induction d with
  | nil => rfl
  | cons e rest ih =>
    obtain ⟨k2, v2⟩ := e
    rw [List.map_cons] at hk
    have h : ¬(k2 = k) := by
      intro he
      subst he
      exact hk (List.mem_cons_self _ _)
    simp [dinsert, h, ih (fun hm => hk (List.mem_cons_of_mem _ hm))]

/-- Folding Python-dict assignment of a per-key value `F` over a token list
multiplies `g ∘ F` once per *distinct* token: duplicated tokens only
overwrite their existing entry. -/
lemma dict_fold_prod (g : ℚ × ℚ → ℚ) (F : String → ℚ × ℚ) (text : List String)
    (d : List (String × (ℚ × ℚ))) (hcons : ∀ e ∈ d, e.2 = F e.1) :
    dprod g (text.foldl (fun d w => dinsert d w (F w)) d) =
      dprod g d * ∏ w ∈ (text.toFinset \ (d.map Prod.fst).toFinset), g (F w) := by
  induction text generalizing d with
  | nil => simp
  | cons w text ih =>
    rw [List.foldl_cons]
    by_cases hw : w ∈ d.map Prod.fst
    · rw [dinsert_mem_consistent d F w hcons hw, ih d hcons]
      rw [List.toFinset_cons, Finset.insert_sdiff_of_mem _ (List.mem_toFinset.mpr hw)]
    · rw [dinsert_not_mem d w (F w) hw]
      have hcons' : ∀ e ∈ d ++ [(w, F w)], e.2 = F e.1 := by
        intro e he
        rcases List.mem_append.mp he with h | h
        · exact hcons e h
        · simp at h
          rw [h]
      rw [ih _ hcons']
      have hd : dprod g (d ++ [(w, F w)]) = dprod g d * g (F w) := by
        simp [dprod]
      have hwK : w ∉ (d.map Prod.fst).toFinset :=
        fun hmem => hw (List.mem_toFinset.mp hmem)
      have hkeys : ((d ++ [(w, F w)]).map Prod.fst).toFinset =
          insert w (d.map Prod.fst).toFinset := by
        ext x
        simp [or_comm]
      have hset : (w :: text).toFinset \ (d.map Prod.fst).toFinset =
          insert w (text.toFinset \ insert w (d.map Prod.fst).toFinset) := by
        rw [List.toFinset_cons]
        ext x
        by_cases hx : x = w
        · subst hx
          simp [hwK]
        · simp [Finset.mem_sdiff, Finset.mem_insert, hx]
      rw [hd, hkeys, hset, Finset.prod_insert (by simp)]
      ring

lemma foldl_mul_pair (d : List (String × (ℚ × ℚ))) (a b : ℚ) :
    d.foldl (fun acc e => (acc.1 * e.2.1, acc.2 * e.2.2)) (a, b) =
      (a * dprod Prod.fst d, b * dprod Prod.snd d) := by
  induction d generalizing a b with
  | nil => simp [dprod]
  | cons e rest ih =>
    rw [List.foldl_cons, ih]
    simp [dprod, mul_assoc]

/-- The classifier totals: prior times the per-token factor of each
*distinct* token of the sentence. -/
lemma calcTotals_eq (m : Model) (text : List String) :
    calcTotals m text =
      (litPrior m * ∏ w ∈ text.toFinset, (tokenPair m w).1,
       oralPrior m * ∏ w ∈ text.toFinset, (tokenPair m w).2) := by
  have h1 := dict_fold_prod Prod.fst (tokenPair m) text []
    (fun e he => absurd he (List.not_mem_nil e))
  have h2 := dict_fold_prod Prod.snd (tokenPair m) text []
    (fun e he => absurd he (List.not_mem_nil e))
  simp only [dprod, List.map_nil, List.prod_nil, one_mul, List.toFinset_nil,
    Finset.sdiff_empty] at h1 h2
  rw [calcTotals, foldl_mul_pair, wordFeatProb]
  simp only [dprod]
  rw [h1, h2]

/-- `calculate` written out with its branch conditions. -/
lemma calculate_eq_ite (m : Model) (text : List String) :
    calculate m text =
      if (calcTotals m text).2 < (calcTotals m text).1 then "LIT"
      else if (calcTotals m text).1 < (calcTotals m text).2 then "ORAL"
      else "UNK" := rfl

/-! ### Concrete tables and models used as test inputs -/

/-- The two-row scenario table of the spec (§8). -/
def tblScenario : List (List String) :=
  [["bonjour", "INTJ", "", "SEN:0", "c1", "LIT"],
   ["wesh", "INTJ", "", "SEN:0", "c2", "ORAL"]]

/-- A table whose rows are all LIT-labeled (zero ORAL sentences). -/
def tblAllLIT : List (List String) := [["a", "x", "y", "SEN:0", "c1", "LIT"]]

/-- A table whose rows are all ORAL-labeled (zero LIT sentences). -/
def tblAllORAL : List (List String) := [["z", "x", "y", "SEN:0", "c1", "ORAL"]]

/-- A table containing a row with the out-of-domain label `FOO`. -/
def tblBadLabel : List (List String) :=
  [["a", "x", "y", "SEN:0", "c1", "LIT"], ["b", "x", "y", "SEN:1", "c1", "FOO"]]

/-- A table in which the word `a` occurs twice inside one LIT sentence. -/
def tblOverOne : List (List String) :=
  [["a", "x", "y", "SEN:0", "c1", "LIT"], ["a", "x", "y", "SEN:0", "c1", "LIT"],
   ["b", "x", "y", "SEN:1", "c2", "ORAL"]]

/-- One LIT and one ORAL sentence, each a single occurrence of `a`. -/
def tblPriorA : List (List String) :=
  [["a", "x", "y", "SEN:0", "c1", "LIT"], ["a", "x", "y", "SEN:0", "c2", "ORAL"]]

/-- One LIT and two ORAL sentences, each a single occurrence of `a`: the
resulting word-probability map coincides with `tblPriorA`'s, but the label
counts differ. -/
def tblPriorB : List (List String) :=
  [["a", "x", "y", "SEN:0", "c1", "LIT"], ["a", "x", "y", "SEN:0", "c2", "ORAL"],
   ["a", "x", "y", "SEN:1", "c2", "ORAL"]]

/-- A model whose single in-vocabulary word `a` has the pair `(1/2, 1/2)`. -/
def mDup : Model :=
  ([("LIT", 1), ("ORAL", 1)], fun w => if w = "a" then some (1/2, 1/2) else none)

/-- A table with one malformed (2-field) row. -/
def tblShort : List (List String) := [["corrélés", "VERB"]]

/-! ### Claim theorems -/

/-- Claim C1: for a training table whose rows all have at least 6 fields and
labels in `{LIT, ORAL}`, with at least one sentence per label, the built
`wordProbability` maps every occurring word to the pair whose LIT component
is `cntLIT w / labelCounts[LIT]` when `w` occurs in a LIT row and
`labelCounts[LIT] / N²` otherwise (symmetrically for ORAL), with
`N = labelCounts[LIT] + labelCounts[ORAL]`: the per-occurrence overwrite of
the scan yields exactly the final full-corpus value. -/
theorem C1_wordProbability_final_values (table : List (List String))
    (h6 : ∀ r ∈ table, 6 ≤ r.length)
    (hlab : ∀ r ∈ table, rowLabel r = "LIT" ∨ rowLabel r = "ORAL")
    (hLIT : 0 < litCountOf table) (hORAL : 0 < oralCountOf table)
    (w : String) (hw : w ∈ table.map rowWord) :
    probsOf table w = some
      ((if 0 < cntLIT table w then (cntLIT table w : ℚ) / (litCountOf table : ℚ)
        else (litCountOf table : ℚ) /
          ((litCountOf table + oralCountOf table : ℕ) : ℚ) ^ 2),
       (if 0 < cntORAL table w then (cntORAL table w : ℚ) / (oralCountOf table : ℚ)
        else (oralCountOf table : ℚ) /
          ((litCountOf table + oralCountOf table : ℕ) : ℚ) ^ 2)) := by
  rw [probsOf_mem table w hw]
  have hn : valuesSum (featCountOf table) = litCountOf table + oralCountOf table := by
    rw [valuesSum_featCountOf, featCount_partition table hlab]
  rw [hn]
  rfl

/-- Witness for C1 at the spec's scenario table and its word `bonjour`. -/
theorem C1_witness :
    (∀ r ∈ tblScenario, 6 ≤ r.length) ∧
    (∀ r ∈ tblScenario, rowLabel r = "LIT" ∨ rowLabel r = "ORAL") ∧
    0 < litCountOf tblScenario ∧ 0 < oralCountOf tblScenario ∧
    "bonjour" ∈ tblScenario.map rowWord ∧
    probsOf tblScenario "bonjour" = some (1, 1 / 4) := by
  refine ⟨by decide, by decide, by decide, by decide, by decide, ?_⟩
  rw [C1_wordProbability_final_values tblScenario (by decide) (by decide)
    (by decide) (by decide) "bonjour" (by decide)]
  rw [show cntLIT tblScenario "bonjour" = 1 from by decide,
    show cntORAL tblScenario "bonjour" = 0 from by decide,
    show litCountOf tblScenario = 1 from by decide,
    show oralCountOf tblScenario = 1 from by decide]
  norm_num

/-- Claim C2 is false as stated: the classifier builds a dict keyed by token,
so a token occurring twice contributes its factor only once.  For the model
`mDup` and the sentence `["a", "a"]`, the accumulated LIT total differs from
prior × factor × factor (one factor per occurrence). -/
theorem C2_counterexample_duplicate_token :
    (calcTotals mDup ["a", "a"]).1 ≠
      litPrior mDup * (tokenPair mDup "a").1 * (tokenPair mDup "a").1 := by
  have hp : tokenPair mDup "a" = (1 / 2, 1 / 2) := by
    simp [tokenPair, mDup]
  have hl : litPrior mDup = 1 / 2 := by
    unfold litPrior mDup
    norm_num [dgetD, dfind]
  have hf : (["a", "a"] : List String).toFinset = {"a"} := by decide
  rw [calcTotals_eq, hl, hp]
  dsimp only
  rw [hf, Finset.prod_singleton, hp]
  norm_num

/-- Claim C2 (amended): the accumulated totals equal the priors multiplied by
the per-token branch probability of every *distinct* token of the sentence —
a token appearing k ≥ 1 times contributes its factor exactly once, because
the per-token loop runs over the keys of the `word_feat_prob` dict. -/
theorem C2_totals_one_factor_per_distinct_token (m : Model) (text : List String) :
    calcTotals m text =
      (litPrior m * ∏ w ∈ text.toFinset, (tokenPair m w).1,
       oralPrior m * ∏ w ∈ text.toFinset, (tokenPair m w).2) :=
  calcTotals_eq m text

/-- Claim C3 is false as stated: the priors are not computed from the
aggregate word-probability data.  The tables `tblPriorA` and `tblPriorB`
build *identical* `wordProbability` maps, yet their priors differ, so the
prior cannot be a function of any stored word pair (it is
`labelCounts[LIT] / N`, from the label frequencies directly). -/
theorem C3_counterexample_priors_not_from_wordProbability :
    probsOf tblPriorA = probsOf tblPriorB ∧
    litPrior (featCountOf tblPriorA, probsOf tblPriorA) ≠
      litPrior (featCountOf tblPriorB, probsOf tblPriorB) := by
  constructor
  · funext w
    by_cases hw : w = "a"
    · subst hw
      rw [probsOf_mem tblPriorA "a" (by decide), probsOf_mem tblPriorB "a" (by decide)]
      rw [show litCountOf tblPriorA = 1 from by decide,
        show oralCountOf tblPriorA = 1 from by decide,
        show valuesSum (featCountOf tblPriorA) = 2 from by decide,
        show cntLIT tblPriorA "a" = 1 from by decide,
        show cntORAL tblPriorA "a" = 1 from by decide,
        show litCountOf tblPriorB = 1 from by decide,
        show oralCountOf tblPriorB = 2 from by decide,
        show valuesSum (featCountOf tblPriorB) = 3 from by decide,
        show cntLIT tblPriorB "a" = 1 from by decide,
        show cntORAL tblPriorB "a" = 2 from by decide]
      norm_num [specPair]
    · have hA : w ∉ tblPriorA.map rowWord := by
        have hm : tblPriorA.map rowWord = ["a", "a"] := rfl
        rw [hm]
        simp [hw]
      have hB : w ∉ tblPriorB.map rowWord := by
        have hm : tblPriorB.map rowWord = ["a", "a", "a"] := rfl
        rw [hm]
        simp [hw]
      rw [probsOf_not_mem _ _ hA, probsOf_not_mem _ _ hB]
  · have hA : litPrior (featCountOf tblPriorA, probsOf tblPriorA) = 1 / 2 := by
      unfold litPrior
      dsimp only
      rw [show dgetD (featCountOf tblPriorA) "LIT" 0 = 1 from by decide,
        show dgetD (featCountOf tblPriorA) "ORAL" 0 = 1 from by decide]
      norm_num
    have hB : litPrior (featCountOf tblPriorB, probsOf tblPriorB) = 1 / 3 := by
      unfold litPrior
      dsimp only
      rw [show dgetD (featCountOf tblPriorB) "LIT" 0 = 1 from by decide,
        show dgetD (featCountOf tblPriorB) "ORAL" 0 = 2 from by decide]
      norm_num
    rw [hA, hB]
    norm_num

/-- Claim C3 (amended): the two prior seeds are computed from the label
counts of the model — `labelCounts[L] / (labelCounts[LIT] + labelCounts[ORAL])`
— normalized so they sum to 1, independently of the word-probability map. -/
theorem C3_priors_from_label_counts (fc : List (String × Nat))
    (pr : String → Option (ℚ × ℚ))
    (h : 0 < dgetD fc "LIT" 0 + dgetD fc "ORAL" 0) :
    litPrior (fc, pr) + oralPrior (fc, pr) = 1 ∧
    litPrior (fc, pr) =
      ((dgetD fc "LIT" 0 : Nat) : ℚ) /
        (((dgetD fc "LIT" 0 + dgetD fc "ORAL" 0 : Nat)) : ℚ) ∧
    oralPrior (fc, pr) =
      ((dgetD fc "ORAL" 0 : Nat) : ℚ) /
        (((dgetD fc "LIT" 0 + dgetD fc "ORAL" 0 : Nat)) : ℚ) := by
  have hsum : (((dgetD fc "LIT" 0 + dgetD fc "ORAL" 0 : Nat)) : ℚ) ≠ 0 :=
    Nat.cast_ne_zero.mpr (Nat.pos_iff_ne_zero.mp h)
  have hsum' : ((dgetD fc "LIT" 0 : Nat) : ℚ) + ((dgetD fc "ORAL" 0 : Nat) : ℚ) ≠ 0 := by
    push_cast at hsum
    exact hsum
  refine ⟨?_, ?_, ?_⟩
  · unfold litPrior oralPrior
    dsimp only
    rw [div_add_div_same, div_self hsum']
  · unfold litPrior
    dsimp only
    rw [Nat.cast_add]
  · unfold oralPrior
    dsimp only
    rw [Nat.cast_add]

/-- Witness for C3 (amended) at a model with one sentence per label. -/
theorem C3_witness :
    0 < dgetD [("LIT", 1), ("ORAL", 1)] "LIT" 0 +
        dgetD [("LIT", 1), ("ORAL", 1)] "ORAL" 0 ∧
    litPrior ([("LIT", 1), ("ORAL", 1)], fun _ => none) +
      oralPrior ([("LIT", 1), ("ORAL", 1)], fun _ => none) = 1 :=
  ⟨by decide,
    (C3_priors_from_label_counts [("LIT", 1), ("ORAL", 1)] (fun _ => none)
      (by decide)).1⟩

/-- Claim C4 is false as stated: a training table with zero ORAL sentences
does *not* raise a degenerate-training error.  The build completes on
`tblAllLIT` and yields the finite pair `(1, 0)` for `a` — the ORAL MLE branch
is unreachable (no word was ever seen under ORAL) and the smoothing branch
computes `0 / N² = 0`, so no division by zero ever occurs. -/
theorem C4_counterexample_no_degenerate_error :
    (get_feat_count tblAllLIT).isSome = true ∧
    probsOf tblAllLIT "a" = some (1, 0) := by
  constructor
  · decide
  · rw [probsOf_mem tblAllLIT "a" (by decide)]
    rw [show litCountOf tblAllLIT = 1 from by decide,
      show oralCountOf tblAllLIT = 0 from by decide,
      show valuesSum (featCountOf tblAllLIT) = 1 from by decide,
      show cntLIT tblAllLIT "a" = 1 from by decide,
      show cntORAL tblAllLIT "a" = 0 from by decide]
    norm_num [specPair]

/-- A label whose distinct-sentence count is zero labels no row at all. -/
lemma no_label_rows_of_count_zero (table : List (List String)) (l : String)
    (hc : ((table.map rowTriple).dedup).countP (fun t => t.2.2 == l) = 0) :
    ∀ r ∈ table, rowLabel r ≠ l := by
  intro r hr he
  have hm : rowTriple r ∈ (table.map rowTriple).dedup :=
    List.mem_dedup.mpr (List.mem_map_of_mem _ hr)
  apply List.countP_eq_zero.mp hc _ hm
  have hl : (rowTriple r).2.2 = rowLabel r := rfl
  rw [hl, he]
  exact beq_self_eq_true l

/-- Claim C4 (amended): on a well-formed table (rows of at least 6 fields,
labels in the `{LIT, ORAL}` domain) in which one of the two labels has zero
training sentences, model building completes (no error), and every occurring
word receives a pair whose component for the zero-count label is exactly `0`
— a degenerate but finite value, not `NaN`/`Inf` and not a raised error:
the MLE division by the zero count is unreachable, and the smoothing branch
computes `0 / N² = 0`. -/
theorem C4_zero_label_build_completes (table : List (List String))
    (h6 : ∀ r ∈ table, 6 ≤ r.length)
    (hlab : ∀ r ∈ table, rowLabel r = "LIT" ∨ rowLabel r = "ORAL")
    (hzero : litCountOf table = 0 ∨ oralCountOf table = 0) :
    get_feat_count table = some (featCountOf table, table) ∧
    ∀ w ∈ table.map rowWord,
      (litCountOf table = 0 → ∃ p : ℚ, probsOf table w = some (0, p)) ∧
      (oralCountOf table = 0 → ∃ p : ℚ, probsOf table w = some (p, 0)) := by
  refine ⟨?_, ?_⟩
  · unfold get_feat_count
    rw [if_pos (List.all_eq_true.mpr (fun r hr => decide_eq_true (h6 r hr)))]
  · intro w hw
    constructor
    · intro hlit0
      have hnone : ∀ r ∈ table, rowLabel r ≠ "LIT" := by
        apply no_label_rows_of_count_zero
        rw [← litCountOf_eq]
        exact hlit0
      have hcw : cntLIT table w = 0 := by
        rw [cntLIT, List.countP_eq_zero]
        intro r hr
        simp [hnone r hr]
      refine ⟨(specPair 0 (oralCountOf table) (valuesSum (featCountOf table))
        0 (cntORAL table w)).2, ?_⟩
      rw [probsOf_mem _ _ hw, hlit0, hcw]
      simp [specPair]
    · intro horal0
      have hnone : ∀ r ∈ table, rowLabel r ≠ "ORAL" := by
        apply no_label_rows_of_count_zero
        rw [← oralCountOf_eq]
        exact horal0
      have hcw : cntORAL table w = 0 := by
        rw [cntORAL, List.countP_eq_zero]
        intro r hr
        simp [hnone r hr]
      refine ⟨(specPair (litCountOf table) 0 (valuesSum (featCountOf table))
        (cntLIT table w) 0).1, ?_⟩
      rw [probsOf_mem _ _ hw, horal0, hcw]
      simp [specPair]

/-- Witness for C4 (amended): the ORAL-zero side at the all-LIT table and
the LIT-zero side at the all-ORAL table. -/
theorem C4_witness :
    (∀ r ∈ tblAllLIT, 6 ≤ r.length) ∧
    (∀ r ∈ tblAllLIT, rowLabel r = "LIT" ∨ rowLabel r = "ORAL") ∧
    (litCountOf tblAllLIT = 0 ∨ oralCountOf tblAllLIT = 0) ∧
    get_feat_count tblAllLIT = some (featCountOf tblAllLIT, tblAllLIT) ∧
    (∃ p : ℚ, probsOf tblAllLIT "a" = some (p, 0)) ∧
    (∃ p : ℚ, probsOf tblAllORAL "z" = some (0, p)) :=
  ⟨by decide, by decide, by decide,
    (C4_zero_label_build_completes tblAllLIT (by decide) (by decide)
      (by decide)).1,
    ((C4_zero_label_build_completes tblAllLIT (by decide) (by decide)
      (by decide)).2 "a" (by decide)).2 (by decide),
    ((C4_zero_label_build_completes tblAllORAL (by decide) (by decide)
      (by decide)).2 "z" (by decide)).1 (by decide)⟩

/-- Claim C5 is false as stated: a row with the out-of-domain label `FOO`
does *not* make the build fail.  The loader counts the `FOO` sentence under
its own key, `get_probs` skips both counter branches for the row, and a full
model is produced in which the bad row's word `b` carries the smoothed pair
`(labelCounts[LIT]/N², labelCounts[ORAL]/N²) = (1/4, 0)`. -/
theorem C5_counterexample_bad_label_accepted :
    (get_feat_count tblBadLabel).isSome = true ∧
    probsOf tblBadLabel "b" = some (1 / 4, 0) := by
  constructor
  · decide
  · rw [probsOf_mem tblBadLabel "b" (by decide)]
    rw [show litCountOf tblBadLabel = 1 from by decide,
      show oralCountOf tblBadLabel = 0 from by decide,
      show valuesSum (featCountOf tblBadLabel) = 2 from by decide,
      show cntLIT tblBadLabel "b" = 0 from by decide,
      show cntORAL tblBadLabel "b" = 0 from by decide]
    norm_num [specPair]

/-- Claim C5 (amended): the build performs no label validation at all — for
any table whose rows all have at least 6 fields, whatever the label values,
`buildModel` succeeds and every occurring word (including words of rows with
out-of-domain labels) has an entry in the word-probability map. -/
theorem C5_no_label_validation (table : List (List String))
    (h6 : ∀ r ∈ table, 6 ≤ r.length) :
    buildModel table = some (featCountOf table, probsOf table) ∧
    ∀ w ∈ table.map rowWord, (probsOf table w).isSome = true := by
  constructor
  · unfold buildModel get_feat_count
    rw [if_pos (List.all_eq_true.mpr (fun r hr => decide_eq_true (h6 r hr)))]
    rfl
  · intro w hw
    rw [probsOf_mem _ _ hw]
    rfl

/-- Witness for C5 (amended) at the bad-label table and its word `b`. -/
theorem C5_witness :
    (∀ r ∈ tblBadLabel, 6 ≤ r.length) ∧
    buildModel tblBadLabel = some (featCountOf tblBadLabel, probsOf tblBadLabel) ∧
    (probsOf tblBadLabel "b").isSome = true :=
  ⟨by decide, (C5_no_label_validation tblBadLabel (by decide)).1,
    (C5_no_label_validation tblBadLabel (by decide)).2 "b" (by decide)⟩

/-- Claim C6 is false as stated: on `tblOverOne` (word `a` twice in a single
LIT sentence, one ORAL sentence) the model is built successfully, yet the LIT
component stored for `a` is `2/1 = 2 ∉ [0, 1]`: the MLE divides the per-word
*token* count by the per-label *sentence* count. -/
theorem C6_counterexample_component_exceeds_one :
    (get_feat_count tblOverOne).isSome = true ∧
    probsOf tblOverOne "a" = some (2, 1 / 4) ∧ ¬((2 : ℚ) ≤ 1) := by
  refine ⟨by decide, ?_, by norm_num⟩
  rw [probsOf_mem tblOverOne "a" (by decide)]
  rw [show litCountOf tblOverOne = 1 from by decide,
    show oralCountOf tblOverOne = 1 from by decide,
    show valuesSum (featCountOf tblOverOne) = 2 from by decide,
    show cntLIT tblOverOne "a" = 2 from by decide,
    show cntORAL tblOverOne "a" = 0 from by decide]
  norm_num [specPair]

/-- Claim C6 (amended): both components of every stored pair are nonnegative;
the upper bound 1 can fail (only) on the MLE branch, when a word has more
token occurrences under a label than that label has distinct sentences. -/
theorem C6_components_nonneg (table : List (List String)) (w : String)
    (p : ℚ × ℚ) (hp : probsOf table w = some p) : 0 ≤ p.1 ∧ 0 ≤ p.2 := by
  by_cases hw : w ∈ table.map rowWord
  · rw [probsOf_mem _ _ hw] at hp
    have hp' : specPair (litCountOf table) (oralCountOf table)
        (valuesSum (featCountOf table)) (cntLIT table w) (cntORAL table w) = p :=
      Option.some_inj.mp hp
    subst hp'
    constructor <;>
      · simp only [specPair]
        split_ifs <;> positivity
  · rw [probsOf_not_mem _ _ hw] at hp
    exact absurd hp (by simp)

/-- Witness for C6 (amended) at the scenario table's word `bonjour`. -/
theorem C6_witness :
    probsOf tblScenario "bonjour" = some (1, 1 / 4) ∧
    (0 : ℚ) ≤ ((1 : ℚ), (1 : ℚ) / 4).1 ∧ (0 : ℚ) ≤ ((1 : ℚ), (1 : ℚ) / 4).2 := by
  have hp : probsOf tblScenario "bonjour" = some (1, 1 / 4) := by
    rw [probsOf_mem tblScenario "bonjour" (by decide)]
    rw [show cntLIT tblScenario "bonjour" = 1 from by decide,
      show cntORAL tblScenario "bonjour" = 0 from by decide,
      show litCountOf tblScenario = 1 from by decide,
      show oralCountOf tblScenario = 1 from by decide,
      show valuesSum (featCountOf tblScenario) = 2 from by decide]
    norm_num [specPair]
  exact ⟨hp, C6_components_nonneg tblScenario "bonjour" (1, 1 / 4) hp⟩

/-- Claim C7: the loader's `labelCounts[LIT] + labelCounts[ORAL]` equals the
number of distinct `(sentenceTag, corpusTag, label)` triples of the table,
however many token rows share a triple. -/
theorem C7_label_counts_partition (table : List (List String))
    (fc : List (String × Nat)) (recs : List (List String))
    (hload : get_feat_count table = some (fc, recs))
    (hlab : ∀ r ∈ table, rowLabel r = "LIT" ∨ rowLabel r = "ORAL") :
    dgetD fc "LIT" 0 + dgetD fc "ORAL" 0 = ((table.map rowTriple).toFinset).card := by
  unfold get_feat_count at hload
  by_cases hall : table.all (fun r => decide (6 ≤ r.length)) = true
  · rw [if_pos hall] at hload
    have hpair := Option.some_inj.mp hload
    rw [Prod.ext_iff] at hpair
    obtain ⟨hfc, -⟩ := hpair
    dsimp only at hfc
    subst hfc
    show litCountOf table + oralCountOf table = _
    rw [List.card_toFinset]
    exact featCount_partition table hlab
  · rw [if_neg hall] at hload
    exact absurd hload (by simp)

/-- Witness for C7 at the scenario table: 1 + 1 = 2 distinct triples. -/
theorem C7_witness :
    get_feat_count tblScenario = some (featCountOf tblScenario, tblScenario) ∧
    (∀ r ∈ tblScenario, rowLabel r = "LIT" ∨ rowLabel r = "ORAL") ∧
    dgetD (featCountOf tblScenario) "LIT" 0 +
        dgetD (featCountOf tblScenario) "ORAL" 0 =
      ((tblScenario.map rowTriple).toFinset).card :=
  ⟨by decide, by decide,
    C7_label_counts_partition tblScenario (featCountOf tblScenario) tblScenario
      (by decide) (by decide)⟩

/-- Claim C8: on a model built from a well-formed table, every
classification-time OOV token is assigned the smoothed pair
`(labelCounts[LIT]/N², labelCounts[ORAL]/N²)` with
`N = labelCounts[LIT] + labelCounts[ORAL]`, and classifying an all-OOV
sentence still returns one of `LIT`, `ORAL`, `UNK`. -/
theorem C8_oov_smoothed_pair (table : List (List String))
    (h6 : ∀ r ∈ table, 6 ≤ r.length)
    (hlab : ∀ r ∈ table, rowLabel r = "LIT" ∨ rowLabel r = "ORAL") :
    (∀ w : String, probsOf table w = none →
      tokenPair (featCountOf table, probsOf table) w =
        ((litCountOf table : ℚ) /
            ((litCountOf table + oralCountOf table : ℕ) : ℚ) ^ 2,
         (oralCountOf table : ℚ) /
            ((litCountOf table + oralCountOf table : ℕ) : ℚ) ^ 2)) ∧
    (∀ text : List String, (∀ w ∈ text, probsOf table w = none) →
      calculate (featCountOf table, probsOf table) text = "LIT" ∨
      calculate (featCountOf table, probsOf table) text = "ORAL" ∨
      calculate (featCountOf table, probsOf table) text = "UNK") := by
  have hn : valuesSum (featCountOf table) = litCountOf table + oralCountOf table := by
    rw [valuesSum_featCountOf, featCount_partition table hlab]
  constructor
  · intro w hw
    unfold tokenPair
    dsimp only
    rw [hw]
    unfold litSmooth oralSmooth nSquared
    dsimp only
    rw [hn]
    rfl
  · intro text _
    rw [calculate_eq_ite]
    split_ifs <;> simp

/-- Witness for C8 at the scenario table and the OOV word `inconnu`. -/
theorem C8_witness :
    (∀ r ∈ tblScenario, 6 ≤ r.length) ∧
    (∀ r ∈ tblScenario, rowLabel r = "LIT" ∨ rowLabel r = "ORAL") ∧
    tokenPair (featCountOf tblScenario, probsOf tblScenario) "inconnu" =
      (1 / 4, 1 / 4) ∧
    (calculate (featCountOf tblScenario, probsOf tblScenario) ["inconnu"] = "LIT" ∨
     calculate (featCountOf tblScenario, probsOf tblScenario) ["inconnu"] = "ORAL" ∨
     calculate (featCountOf tblScenario, probsOf tblScenario) ["inconnu"] = "UNK") := by
  have hoov : probsOf tblScenario "inconnu" = none :=
    probsOf_not_mem tblScenario "inconnu" (by decide)
  refine ⟨by decide, by decide, ?_, ?_⟩
  · rw [(C8_oov_smoothed_pair tblScenario (by decide) (by decide)).1 "inconnu" hoov]
    rw [show litCountOf tblScenario = 1 from by decide,
      show oralCountOf tblScenario = 1 from by decide]
    norm_num
  · refine (C8_oov_smoothed_pair tblScenario (by decide) (by decide)).2 ["inconnu"] ?_
    intro w hw
    rw [List.mem_singleton] at hw
    subst hw
    exact hoov

/-- Claim C9: the classifier returns `LIT` iff `totalLIT > totalORAL`,
`ORAL` iff `totalORAL > totalLIT`, and `UNK` exactly on numeric equality
(including both totals being exactly 0); no other tie-break exists. -/
theorem C9_decision_rule (m : Model) (text : List String) :
    (calculate m text = "LIT" ↔ (calcTotals m text).2 < (calcTotals m text).1) ∧
    (calculate m text = "ORAL" ↔ (calcTotals m text).1 < (calcTotals m text).2) ∧
    (calculate m text = "UNK" ↔ (calcTotals m text).1 = (calcTotals m text).2) := by
  rcases lt_trichotomy (calcTotals m text).1 (calcTotals m text).2 with h | h | h
  · have hv : calculate m text = "ORAL" := by
      rw [calculate_eq_ite, if_neg (not_lt.mpr h.le), if_pos h]
    rw [hv]
    exact ⟨by simp [lt_asymm h], by simp [h], by simp [h.ne]⟩
  · have hv : calculate m text = "UNK" := by
      rw [calculate_eq_ite, if_neg (by rw [h]; exact lt_irrefl _),
        if_neg (by rw [h]; exact lt_irrefl _)]
    rw [hv]
    exact ⟨by simp [h], by simp [h], by simp [h]⟩
  · have hv : calculate m text = "LIT" := by
      rw [calculate_eq_ite, if_pos h]
    rw [hv]
    exact ⟨by simp [h], by simp [lt_asymm h], by simp [ne_of_gt h]⟩

/-- Claim C10: a training table containing a row with fewer than 6 fields
fails the whole load — `get_feat_count` aborts (IndexError while building the
sentence set) and returns neither label counts nor records. -/
theorem C10_short_row_fails_load (table : List (List String))
    (h : ∃ r ∈ table, r.length < 6) : get_feat_count table = none := by
  have hfail : ¬(table.all (fun r => decide (6 ≤ r.length)) = true) := by
    intro hall
    obtain ⟨r, hr, hlen⟩ := h
    exact absurd (of_decide_eq_true (List.all_eq_true.mp hall r hr)) (by omega)
  unfold get_feat_count
  rw [if_neg hfail]

/-- Witness for C10 at a table with a 2-field row. -/
theorem C10_witness :
    (∃ r ∈ tblShort, r.length < 6) ∧ get_feat_count tblShort = none :=
  ⟨by decide, C10_short_row_fails_load tblShort (by decide)⟩

end Teki
